import Mathlib

/-!
Verification of the TrustonicReporting ingestion pipeline.

This file gives a shallow embedding, in Lean 4, of the Excel-ingestion code of
the repository: the region/customer normalizer, the per-field value converter,
the date parser, the column resolver, the sheet extractors, the device and
inventory content hashes (SHA-256 over the pipe-joined key fields) and the
inventory database loader.  All definitions are translated from the TypeScript
source (`excelParser` service, `columnMapping.ts`, `databaseLoader.ts`).

Modelling conventions:
* JavaScript strings are Lean `String`s; UTF-16 code-unit comparison and
  codepoint comparison agree on the Basic Multilingual Plane, which covers all
  data handled here.
* `toLowerCase`/`toUpperCase` are modelled per character for ASCII and the
  Latin-1 letter block (the only characters occurring in the lookup tables);
  Unicode special casing (e.g. the multi-character uppercase of sharp s) is
  outside the model.
* The whitespace class used by `trim` and by the regex `\s` is modelled by the
  ASCII whitespace characters.
* External, engine-provided behaviour (the `new Date(...)` fallback of the
  date parser) is passed in as an explicit function parameter.
* The PostgreSQL inventory table is modelled as the list of fingerprints it
  contains, passed and returned explicitly.
-/

/-- ASCII whitespace, modelling the JS `\s` class and `String.prototype.trim`. -/
def isWsChar (c : Char) : Bool :=
  c = ' ' || c = '\t' || c = '\n' || c = '\r' || c = Char.ofNat 11 || c = Char.ofNat 12

/-- Decimal digit, modelling the JS `\d` class. -/
def isDigitCh (c : Char) : Bool :=
  '0' ≤ c && c ≤ '9'

/-- Per-character `toLowerCase` for ASCII and Latin-1 letters. -/
def lowCh (c : Char) : Char :=
  if 'A' ≤ c && c ≤ 'Z' then Char.ofNat (c.toNat + 32)
  else if 0xC0 ≤ c.toNat && c.toNat ≤ 0xDE && c.toNat ≠ 0xD7 then Char.ofNat (c.toNat + 32)
  else c

/-- Per-character `toUpperCase` for ASCII and Latin-1 letters. -/
def upCh (c : Char) : Char :=
  if 'a' ≤ c && c ≤ 'z' then Char.ofNat (c.toNat - 32)
  else if 0xE0 ≤ c.toNat && c.toNat ≤ 0xFE && c.toNat ≠ 0xF7 then Char.ofNat (c.toNat - 32)
  else c

/-- `String.prototype.toLowerCase`. -/
def lowStr (s : String) : String :=
  ⟨s.data.map lowCh⟩

/-- `String.prototype.trim` (remove leading and trailing whitespace). -/
def jsTrimChars (l : List Char) : List Char :=
  ((l.dropWhile isWsChar).reverse.dropWhile isWsChar).reverse

/-- `String.prototype.trim` on strings. -/
def jsTrim (s : String) : String :=
  ⟨jsTrimChars s.data⟩

/-- Substring containment, modelling `String.prototype.includes`. -/
def hasSub (needle hay : List Char) : Bool :=
  match hay with
  | [] => needle.isEmpty
  | _ :: t => needle.isPrefixOf hay || hasSub needle t

/-- `String.prototype.padStart(2, '0')`, used by the date parser. -/
def pad2 (s : String) : String :=
  if s.length < 2 then "0" ++ s else s

/-! ### The split regex of `normalizeRegionAndCustomer`

The normalizer splits on `/,|\s+and\s+|&|\/|\n/i`.  `matchAnd` recognises the
`\s+and\s+` alternative at the current position (greedy whitespace runs; the
letters `a`, `n`, `d` matched case-insensitively); `scanAux` walks the string
left to right, cutting at the leftmost delimiter occurrence, trying the
`\s+and\s+` alternative before the lone-newline alternative exactly as the
regex alternation order does. -/

/-- Letter test used by the case-insensitive literal `and` of the split regex. -/
def isLetterOf (lo : Char) (c : Char) : Bool :=
  c = lo || c = upCh lo

/-- Match `\s+and\s+` (case-insensitive) at the head of `cs`; return the suffix
after the match. -/
def matchAnd (cs : List Char) : Option (List Char) :=
  let w := cs.takeWhile isWsChar
  let r := cs.dropWhile isWsChar
  if w.isEmpty then none
  else
    match r with
    | a :: n :: d :: rest =>
      if isLetterOf 'a' a && isLetterOf 'n' n && isLetterOf 'd' d then
        if (rest.takeWhile isWsChar).isEmpty then none
        else some (rest.dropWhile isWsChar)
      else none
    | _ => none

/-- Cut characters of the split regex other than the `\s+and\s+` and `\n`
alternatives. -/
def isCutChar (c : Char) : Bool :=
  c = ',' || c = '&' || c = '/'

/-- Left-to-right scanner for `String.prototype.split` with the normalizer's
regex.  `acc` holds the (reversed) characters of the part under construction.
The fuel argument makes the recursion structural; every step consumes at least
one character, so any fuel at least the list length gives the scan semantics
(`scanGo_fuel` below). -/
def scanGo : Nat → List Char → List Char → List (List Char)
  | _, [], acc => [acc.reverse]
  | 0, cs, acc => [acc.reverse ++ cs]
  | fuel + 1, c :: rest, acc =>
    if isCutChar c then acc.reverse :: scanGo fuel rest []
    else if isWsChar c then
      (matchAnd (c :: rest)).elim
        (if c = '\n' then acc.reverse :: scanGo fuel rest []
         else scanGo fuel rest (c :: acc))
        (fun rest2 => acc.reverse :: scanGo fuel rest2 [])
    else scanGo fuel rest (c :: acc)

/-- The scanner at adequate fuel. -/
def scanAux (cs acc : List Char) : List (List Char) :=
  scanGo cs.length cs acc

/-- `val.split(/,|\s+and\s+|&|\/|\n/i)`. -/
def splitParts (s : String) : List String :=
  (scanAux s.data []).map (fun l => ⟨l⟩)

/-! ### Title casing -/

/-- `part.split(/\s+/)`: split on whitespace runs (fuel-structured like
`scanGo`). -/
def splitWsGo : Nat → List Char → List Char → List (List Char)
  | _, [], acc => [acc.reverse]
  | 0, cs, acc => [acc.reverse ++ cs]
  | fuel + 1, c :: rest, acc =>
    if isWsChar c then acc.reverse :: splitWsGo fuel (rest.dropWhile isWsChar) []
    else splitWsGo fuel rest (c :: acc)

/-- The whitespace splitter at adequate fuel. -/
def splitWsAux (cs acc : List Char) : List (List Char) :=
  splitWsGo cs.length cs acc

/-- `word.charAt(0).toUpperCase() + word.slice(1).toLowerCase()`. -/
def titleWord (w : List Char) : List Char :=
  match w with
  | [] => []
  | c :: rest => upCh c :: rest.map lowCh

/-- Title-casing branch of the normalizer: split the part on whitespace runs,
capitalise each word, lowercase the remainder, rejoin with single spaces. -/
def titleCase (s : String) : String :=
  String.intercalate " " ((splitWsAux s.data []).map (fun w => (⟨titleWord w⟩ : String)))

/-! ### The typo-correction table and the normalizer -/

/-- The fixed typo-correction table of `normalizeRegionAndCustomer`. -/
def typoList : List (String × String) :=
  [("bhamas", "Bahamas"),
   ("bhahamas", "Bahamas"),
   ("peru", "Peru"),
   ("mxico", "Mexico"),
   ("mexico", "Mexico"),
   ("panam", "Panama"),
   ("panama", "Panama"),
   ("colomiba", "Colombia"),
   ("dominicana", "República Dominicana"),
   ("jamaica and barbados", "Jamaica, Barbados"),
   ("om", "Latam Om"),
   ("latam om", "Latam Om")]

/-- Lookup in the typo-correction table (keys are already lowercase). -/
def typoLookup (s : String) : Option String :=
  typoList.lookup s

/-- The per-segment cleaner of `normalizeRegionAndCustomer`: trim, drop
segments shorter than two characters, correct known typos, otherwise
title-case. -/
def cleanPart (s : String) : String :=
  let part := jsTrim s
  if part = "" || part.length < 2 then ""
  else
    match typoLookup (lowStr part) with
    | some v => v
    | none => titleCase part

/-- The default `Array.prototype.sort` comparator: lexicographic code-unit
comparison, modelled as the lexicographic order on the character lists. -/
def jsStrLe (a b : String) : Prop :=
  a.data ≤ b.data

instance : DecidableRel jsStrLe :=
  fun a b => inferInstanceAs (Decidable (a.data ≤ b.data))

instance : IsTotal String jsStrLe :=
  ⟨fun a b => le_total a.data b.data⟩

instance : IsTrans String jsStrLe :=
  ⟨fun _ _ _ h1 h2 => le_trans h1 h2⟩

instance : IsAntisymm String jsStrLe :=
  ⟨fun a b h1 h2 => by
    cases a
    cases b
    exact congrArg String.mk (le_antisymm h1 h2)⟩

/-- Lexicographic sort used for hash stability (`Array.prototype.sort` with the
default comparator; any comparison sort yields this list since the order is
total and antisymmetric). -/
def sortStr (l : List String) : List String :=
  l.insertionSort jsStrLe

/-- `normalizeRegionAndCustomer`: split on the delimiters, clean each segment,
drop empties, sort, rejoin with a comma and a space. -/
def normalizeRegionAndCustomer (val : String) : String :=
  if val = "" then val
  else
    String.intercalate ", "
      (sortStr (((splitParts val).map cleanPart).filter (fun s => s ≠ "")))

/-- Solution-field normalization of `convertValue`: split on commas, trim,
replace the version typos `1.o` and `1.O` by `1.0`, drop empties, rejoin. -/
def normSolution (trimmed : String) : String :=
  String.intercalate ", "
    ((trimmed.splitOn ",").map
        (fun s => ((jsTrim s).replace "1.o" "1.0").replace "1.O" "1.0")
      |>.filter (fun s => s ≠ ""))

/-! ### Date parsing (`parseDate`)

The generic `new Date(str)` fallback is JavaScript-engine behaviour; it is
passed in as an explicit parameter `fb` (already composed with the UTC
re-serialisation, yielding `none` for an invalid date). -/

/-- Test for the anchored pattern `^\d{4}-\d{2}-\d{2}$`. -/
def isIsoDate (s : String) : Bool :=
  match s.data with
  | [a, b, c, d, h1, e, f, h2, g, h] =>
    isDigitCh a && isDigitCh b && isDigitCh c && isDigitCh d && h1 = '-' &&
      isDigitCh e && isDigitCh f && h2 = '-' && isDigitCh g && isDigitCh h
  | _ => false

/-- Separator class (slash or hyphen) of the day-month-year pattern. -/
def isSepCh (c : Char) : Bool :=
  c = '/' || c = '-'

/-- Match the anchored day-month-year pattern: one or two digits, a slash or
hyphen, one or two digits, a slash or hyphen, four digits; returns the three
captured groups. -/
def matchDMY (s : String) : Option (String × String × String) :=
  let cs := s.data
  let dpart := cs.takeWhile isDigitCh
  let rest1 := cs.dropWhile isDigitCh
  if dpart.length = 0 || 2 < dpart.length then none
  else if rest1.isEmpty then none
  else if isSepCh (rest1.headD ' ') then
    let mpart := rest1.tail.takeWhile isDigitCh
    let rest2 := rest1.tail.dropWhile isDigitCh
    if mpart.length = 0 || 2 < mpart.length then none
    else if rest2.isEmpty then none
    else if isSepCh (rest2.headD ' ') then
      let ypart := rest2.tail
      if ypart.length = 4 && ypart.all isDigitCh then some (⟨dpart⟩, ⟨mpart⟩, ⟨ypart⟩)
      else none
    else none
  else none

/-- `parseDate`: empty input gives null; an already-ISO string passes through;
a `D/M/YYYY`-shaped string (either separator in either place) is reassembled
as `YYYY-MM-DD`; anything else goes to the `new Date` fallback `fb`. -/
def parseDate (fb : String → Option String) (value : String) : Option String :=
  if value = "" then none
  else
    let str := jsTrim value
    if str = "" then none
    else if isIsoDate str then some str
    else
      match matchDMY str with
      | some (d, m, y) => some (y ++ "-" ++ pad2 m ++ "-" ++ pad2 d)
      | none => fb str

/-! ### Dynamic records

`mapRowToRecord` builds a JS object whose values are strings, booleans or
null.  `RVal` models those values; a record is an association list in
insertion order. -/

/-- A JS value stored in a parsed record. -/
inductive RVal where
  | str (s : String)
  | bool (b : Bool)
  | null
deriving DecidableEq, Repr

/-- `String(v)` on a record value. -/
def rvalToString : RVal → String
  | .str s => s
  | .bool true => "true"
  | .bool false => "false"
  | .null => "null"

/-- JS truthiness of a record value (`undefined` is modelled by `.null`,
which has the same truthiness and the same behaviour under `v || ''`). -/
def truthy : RVal → Bool
  | .str s => s ≠ ""
  | .bool b => b
  | .null => false

/-- A parsed record: field name to value, in insertion order. -/
def RecT := List (String × RVal)

/-- Read a field; a missing key behaves like null/undefined. -/
def rvGet (r : RecT) (f : String) : RVal :=
  match List.lookup f r with
  | some v => v
  | none => .null

/-- Assign a field, JS-object style (overwrite in place or append). -/
def setField : RecT → String → RVal → RecT
  | [], f, v => [(f, v)]
  | (g, w) :: rest, f, v =>
    if g = f then (g, v) :: rest else (g, w) :: setField rest f v

/-- `String(record[f] || '')`: falsy values print as the empty string. -/
def stringOrEmpty (v : RVal) : String :=
  if truthy v then rvalToString v else ""

/-! ### Per-field conversion (`convertValue`) -/

/-- `convertValue`: region/customer normalization, solution cleanup, date
parsing for field names containing `date` or `schedule`, boolean coercion for
`dual_sim`, and trimming for everything else. -/
def convertValue (fb : String → Option String) (fieldName : String) (value : String) : RVal :=
  let trimmed := jsTrim value
  if fieldName = "target_region" || fieldName = "target_customer" then
    .str (normalizeRegionAndCustomer trimmed)
  else if fieldName = "target_solution" then
    .str (normSolution trimmed)
  else if hasSub "date".data fieldName.data || hasSub "schedule".data fieldName.data then
    match parseDate fb trimmed with
    | some d => .str d
    | none => .null
  else if fieldName = "dual_sim" then
    .bool (lowStr trimmed = "y" || lowStr trimmed = "yes" ||
           trimmed = "1" || lowStr trimmed = "true")
  else .str trimmed

/-! ### Column resolution (`columnMapping.ts`) -/

/-- `COLUMN_ALIASES`, in source (insertion) order: canonical field name to the
accepted header spellings. -/
def COLUMN_ALIASES : List (String × List String) :=
  [("brand", ["Brand", "Marca", "OEM"]),
   ("device", ["Market Name", "Device Name", "Dispositivo", "Nombre Comercial"]),
   ("device_type", ["Device", "Type", "Tipo", "Tipo de Dispositivo"]),
   ("project", ["Project", "Proyecto", "Project Name"]),
   ("model", ["Model", "Modelo", "Model Name", "Model_Name"]),
   ("build", ["Build", "Build Number", "Version"]),
   ("tac", ["TAC", "Type Allocation Code"]),
   ("approved_date", ["Approved Dated", "Approved Date", "Fecha Aprobación", "Approval Date"]),
   ("dual_sim", ["Dual SIM (Y/N)", "Dual SIM", "DualSIM", "Dual_SIM"]),
   ("target_region", ["Target Region", "Region", "Región", "Target_Region"]),
   ("target_customer",
     ["Target Customer", "Customer", "Cliente", "Target_Customer", "Costumer", "Costumer Name"]),
   ("android_version", ["Android version", "Android Version", "Android", "OS Version"]),
   ("volume_forecast", ["Volume Forecast", "Forecast", "Volume", "Volume_Forecast"]),
   ("target_solution", ["Target Solution (DPC/DLC)", "Target Solution", "Solution", "DPC/DLC"]),
   ("integration_requirement",
     ["Integration Requirement", "Integration Requirements", "Requirements"]),
   ("initial_sw_schedule",
     ["initial SW build schedule", "Initial SW Schedule", "SW Build Schedule"]),
   ("commercial_schedule",
     ["Commercial build schedule for Massive", "Commercial Schedule",
      "Mass Production Schedule"]),
   ("sw_freeze_date", ["SW Freeze date", "SW Freeze Date", "Freeze Date"]),
   ("initial_shipment_date", ["Initial Shipment date", "Initial Shipment Date", "First Shipment"]),
   ("initial_selling_date", ["Initial Selling date", "Initial Selling Date", "Selling Date"]),
   ("launch_date", ["Launch date", "Launch Date", "Launch"]),
   ("sample_shipped", ["Sample Shipped", "Samples Shipped", "Sample Status"]),
   ("priority", ["Priority", "Prioridad"]),
   ("status", ["Status", "Estado", "Validation Status"]),
   ("comments", ["Comments", "Comentarios", "Notes", "Notas", "Comment", "Observaciones"]),
   ("tester", ["Tester", "QA", "Test Engineer"]),
   ("contact", ["Contact", "Contacto", "Contact Person"]),
   ("in_inventory", ["In inventory", "En Inventario", "Inventory", "Stock", "In Inventory (Yes/No)"]),
   ("nm_flow", ["NM-Flow", "Flow", "Network Manager Flow", "NM Flow"]),
   ("solution_type",
     ["DPC/DLC", "DPC-DLC", "DPC DLC", "Solution Type", "Tipo de Solución", "Solution_Type",
      "DPC_DLC"]),
   ("device_name", ["Device Name Inventory", "Device Name", "Nombre del Dispositivo"]),
   ("marketing_name", ["Marketing Name", "Nombre Comercial"]),
   ("serial_number", ["Serial Number", "S/N", "Número de Serie", "Serial_Number"]),
   ("imei1", ["IMEI 1", "IMEI_1", "Imei 1"]),
   ("imei2", ["IMEI 2", "IMEI_2", "Imei 2"]),
   ("received_on", ["Received On", "Fecha de Recibido", "Received"]),
   ("returned_on", ["Returned On", "Fecha de Devolución", "Returned"]),
   ("remark", ["Remark", "Observación", "Comentario Inventario", "Remarks"]),
   ("inventory_comments", ["Comments", "Comentarios", "Notes", "Inventory Comments"])]

/-- `IGNORED_COLUMNS`: headers containing any of these (case-insensitively)
are dropped. -/
def IGNORED_COLUMNS : List String :=
  ["Status Options", "Unnamed"]

/-- `findFieldName`: trim and lowercase the header, reject ignored headers by
substring match, then return the first canonical field with an exact
case-insensitive alias match. -/
def findFieldName (excelColumn : String) : Option String :=
  let normalizedColumn := lowStr (jsTrim excelColumn)
  if IGNORED_COLUMNS.any (fun ign => hasSub (lowStr ign).data normalizedColumn.data) then
    none
  else
    (COLUMN_ALIASES.find? (fun p => p.2.any (fun al => lowStr al = normalizedColumn))).map
      Prod.fst

/-- `createColumnMap`: column index to canonical field name, in column order,
skipping empty headers and unresolved columns. -/
def createColumnMap (headerRow : List String) : List (Nat × String) :=
  headerRow.enum.filterMap
    (fun p => if p.2 = "" then none else (findFieldName p.2).map (fun f => (p.1, f)))

/-- `isValidRecord`: the record must have a truthy, non-whitespace `device` or
`model` field. -/
def hasContent (v : RVal) : Bool :=
  truthy v && jsTrim (rvalToString v) ≠ ""

/-- `isValidRecord` from `columnMapping.ts`. -/
def isValidRecord (record : RecT) : Bool :=
  hasContent (rvGet record "device") || hasContent (rvGet record "model")

/-- `VALID_STATUS_VALUES`. -/
def VALID_STATUS_VALUES : List String :=
  ["Not Started", "Testing", "Completed", "Issue", "Cancelled"]

/-- `normalizeStatus`: exact case-insensitive match against the closed status
enum; non-strings and empty strings give null. -/
def normalizeStatus (value : RVal) : Option String :=
  match value with
  | .str s =>
    if s = "" then none
    else VALID_STATUS_VALUES.find? (fun st => lowStr st = lowStr (jsTrim s))
  | _ => none

/-- `mapRowToRecord`: walk the column map in order; non-empty cells are
converted, empty or missing cells store null. -/
def mapRowToRecord (fb : String → Option String) (values : List String)
    (columnMap : List (Nat × String)) : RecT :=
  columnMap.foldl
    (fun record p =>
      let value := values.getD p.1 ""
      if jsTrim value ≠ "" then setField record p.2 (convertValue fb p.2 value)
      else setField record p.2 .null)
    []

/-! ### SHA-256 (`crypto.createHash('sha256')`)

A complete executable SHA-256 over byte lists, with 32-bit words as `Nat`
reduced modulo `2 ^ 32`. -/

/-- UTF-8 encoding of one character. -/
def utf8Char (c : Char) : List Nat :=
  let n := c.toNat
  if n < 0x80 then [n]
  else if n < 0x800 then [0xC0 + n / 64, 0x80 + n % 64]
  else if n < 0x10000 then [0xE0 + n / 4096, 0x80 + (n / 64) % 64, 0x80 + n % 64]
  else [0xF0 + n / 262144, 0x80 + (n / 4096) % 64, 0x80 + (n / 64) % 64, 0x80 + n % 64]

/-- UTF-8 encoding of a string (Node hashes strings as UTF-8 by default). -/
def utf8Bytes (s : String) : List Nat :=
  s.data.flatMap utf8Char

/-- Right rotation of a 32-bit word. -/
def rotr32 (n x : Nat) : Nat :=
  x / 2 ^ n + x % 2 ^ n * 2 ^ (32 - n)

/-- The SHA-256 round constants. -/
def sha256K : List Nat :=
  [1116352408, 1899447441, 3049323471, 3921009573, 961987163,
   1508970993, 2453635748, 2870763221, 3624381080, 310598401,
   607225278, 1426881987, 1925078388, 2162078206, 2614888103,
   3248222580, 3835390401, 4022224774, 264347078, 604807628,
   770255983, 1249150122, 1555081692, 1996064986, 2554220882,
   2821834349, 2952996808, 3210313671, 3336571891, 3584528711,
   113926993, 338241895, 666307205, 773529912, 1294757372,
   1396182291, 1695183700, 1986661051, 2177026350, 2456956037,
   2730485921, 2820302411, 3259730800, 3345764771, 3516065817,
   3600352804, 4094571909, 275423344, 430227734, 506948616,
   659060556, 883997877, 958139571, 1322822218, 1537002063,
   1747873779, 1955562222, 2024104815, 2227730452, 2361852424,
   2428436474, 2756734187, 3204031479, 3329325298]

/-- The SHA-256 initial hash state. -/
def sha256H0 : List Nat :=
  [1779033703, 3144134277, 1013904242, 2773480762,
   1359893119, 2600822924, 528734635, 1541459225]

/-- Big-endian 8-byte encoding. -/
def be64 (n : Nat) : List Nat :=
  (List.range 8).map (fun i => n / 2 ^ (8 * (7 - i)) % 256)

/-- SHA-256 message padding: a 0x80 byte, zeros, and the 64-bit bit length. -/
def sha256Pad (msg : List Nat) : List Nat :=
  let z := (119 - msg.length % 64) % 64
  msg ++ [0x80] ++ List.replicate z 0 ++ be64 (msg.length * 8)

/-- Group padded bytes into big-endian 32-bit words. -/
def wordsOfBytes (l : List Nat) : List Nat :=
  (List.range (l.length / 4)).map
    (fun i =>
      l.getD (4 * i) 0 * 2 ^ 24 + l.getD (4 * i + 1) 0 * 2 ^ 16 +
        l.getD (4 * i + 2) 0 * 2 ^ 8 + l.getD (4 * i + 3) 0)

/-- Extend the 16 block words to the 64-entry message schedule. -/
def sha256Schedule (block : List Nat) : Array Nat :=
  (List.range 48).foldl
    (fun arr i =>
      let j := i + 16
      let w15 := arr.getD (j - 15) 0
      let w2 := arr.getD (j - 2) 0
      let s0 := rotr32 7 w15 ^^^ rotr32 18 w15 ^^^ w15 / 2 ^ 3
      let s1 := rotr32 17 w2 ^^^ rotr32 19 w2 ^^^ w2 / 2 ^ 10
      arr.push ((arr.getD (j - 16) 0 + s0 + arr.getD (j - 7) 0 + s1) % 2 ^ 32))
    block.toArray

/-- One SHA-256 compression step over a 16-word block. -/
def sha256Compress (h : List Nat) (block : List Nat) : List Nat :=
  let w := sha256Schedule block
  let st := (List.range 64).foldl
    (fun (st : Nat × Nat × Nat × Nat × Nat × Nat × Nat × Nat) i =>
      let (a, b, c, d, e, f, g, hh) := st
      let s1 := rotr32 6 e ^^^ rotr32 11 e ^^^ rotr32 25 e
      let ch := (e &&& f) ^^^ ((2 ^ 32 - 1 - e) &&& g)
      let temp1 := (hh + s1 + ch + sha256K.getD i 0 + w.getD i 0) % 2 ^ 32
      let s0 := rotr32 2 a ^^^ rotr32 13 a ^^^ rotr32 22 a
      let maj := (a &&& b) ^^^ (a &&& c) ^^^ (b &&& c)
      let temp2 := (s0 + maj) % 2 ^ 32
      ((temp1 + temp2) % 2 ^ 32, a, b, c, (d + temp1) % 2 ^ 32, e, f, g))
    (h.getD 0 0, h.getD 1 0, h.getD 2 0, h.getD 3 0,
     h.getD 4 0, h.getD 5 0, h.getD 6 0, h.getD 7 0)
  let (a, b, c, d, e, f, g, hh) := st
  (List.zip h [a, b, c, d, e, f, g, hh]).map (fun p => (p.1 + p.2) % 2 ^ 32)

/-- SHA-256 of a byte list, as the eight 32-bit state words. -/
def sha256Words (msg : List Nat) : List Nat :=
  let padded := sha256Pad msg
  let blocks := (List.range (padded.length / 64)).map
    (fun i => wordsOfBytes ((padded.drop (64 * i)).take 64))
  blocks.foldl sha256Compress sha256H0

/-- Lowercase hex digit. -/
def hexDigitCh (n : Nat) : Char :=
  if n < 10 then Char.ofNat (48 + n) else Char.ofNat (87 + n)

/-- Lowercase hex encoding of a 32-bit word. -/
def wordHex (w : Nat) : List Char :=
  (List.range 8).map (fun i => hexDigitCh (w / 2 ^ (4 * (7 - i)) % 16))

/-- `crypto.createHash('sha256').update(s).digest('hex')` for a UTF-8 string. -/
def sha256hexStr (s : String) : String :=
  ⟨(sha256Words (utf8Bytes s)).flatMap wordHex⟩

/-! ### Content fingerprints -/

/-- The fixed key-field list of `generateDeviceHash`. -/
def DEVICE_KEY_FIELDS : List String :=
  ["device", "model", "tac", "build", "target_region", "target_solution", "target_customer"]

/-- `generateDeviceHash`: lowercase and trim each key field (absent, null and
false print as the empty string), join with pipes, SHA-256, first 64 hex
characters (the whole hex digest). -/
def generateDeviceHash (record : RecT) : String :=
  let keyData :=
    String.intercalate "|" (DEVICE_KEY_FIELDS.map (fun f => jsTrim (lowStr (stringOrEmpty (rvGet record f)))))
  (sha256hexStr keyData).take 64

/-! ### Sheet extraction (`parseDevicesSheet`, `parseInventorySheet`) -/

/-- A parse error: sheet name, 1-based row (0 for sheet-level errors),
message. -/
structure ParseError where
  sheet : String
  row : Nat
  message : String
deriving DecidableEq, Repr

/-- A parsed device: the record fields plus fingerprint and provenance. -/
structure Device where
  fields : RecT
  device_hash : String
  sheet_name : String
  row_index : Nat

/-- Blank-row test: every cell trims to the empty string. -/
def allBlank (values : List String) : Bool :=
  values.all (fun v => jsTrim v = "")

/-- A worksheet, as its rows of cell strings; `getRow i` is 1-based like
`worksheet.getRow`, and rows beyond the row count read as empty. -/
def getRow (ws : List (List String)) (i : Nat) : List String :=
  ws.getD (i - 1) []

/-- Header scan: try the listed (1-based) row indices in order and return the
first whose resolved column map reaches `minSize`, with that map. -/
def findHeaderIn (ws : List (List String)) (minSize : Nat) :
    List Nat → Option (Nat × List (Nat × String))
  | [] => none
  | i :: rest =>
    let cm := createColumnMap (getRow ws i)
    if minSize ≤ cm.length then some (i, cm) else findHeaderIn ws minSize rest

/-- The body of the per-row `try` block of `parseDevicesSheet`: map the row,
apply the validity gate, normalize status, apply the brand override, and
fingerprint.  `none` is the silent skip of invalid records. -/
def deviceRowBody (fb : String → Option String) (brandOpt : Option String)
    (cmap : List (Nat × String)) (sheet : String) (i : Nat) (values : List String) :
    Option Device :=
  let record := mapRowToRecord fb values cmap
  if ¬ isValidRecord record then none
  else
    let record1 :=
      if truthy (rvGet record "status") then
        match normalizeStatus (rvGet record "status") with
        | some st => setField record "status" (.str st)
        | none => setField record "status" .null
      else record
    let record2 :=
      match brandOpt with
      | some b => if b ≠ "" then setField record1 "brand" (.str b) else record1
      | none => record1
    some ⟨record2, generateDeviceHash record2, sheet, i⟩

/-- The data-row loop shared by both sheet parsers: skip blank rows, run the
row body, record a `ParseError` carrying the sheet name and row index when the
body fails, and keep going.  The body is an `Except`, embedding the `try`/
`catch` of the source; the concrete parsers instantiate it with a total
(`Except.ok`) body. -/
def processDataRows {α : Type} (sheet : String)
    (body : Nat → List String → Except String (Option α)) :
    Nat → List (List String) → List α × List ParseError
  | _, [] => ([], [])
  | i, values :: rest =>
    if allBlank values then processDataRows sheet body (i + 1) rest
    else
      match body i values with
      | .error msg =>
        ((processDataRows sheet body (i + 1) rest).1,
         ⟨sheet, i, msg⟩ :: (processDataRows sheet body (i + 1) rest).2)
      | .ok none => processDataRows sheet body (i + 1) rest
      | .ok (some a) =>
        (a :: (processDataRows sheet body (i + 1) rest).1,
         (processDataRows sheet body (i + 1) rest).2)

/-- `parseDevicesSheet`: locate the header within the first five rows (at
least three resolved columns), else report one sheet-level error; then walk
the data rows. -/
def parseDevicesSheet (fb : String → Option String) (sheetName : String)
    (brandOpt : Option String) (ws : List (List String)) :
    List Device × List ParseError :=
  match findHeaderIn ws 3 [1, 2, 3, 4, 5] with
  | none => ([], [⟨sheetName, 0, "No se encontraron encabezados válidos en la hoja"⟩])
  | some (hIdx, cmap) =>
    processDataRows sheetName
      (fun i v => .ok (deviceRowBody fb brandOpt cmap sheetName i v))
      (hIdx + 1) (ws.drop hIdx)

/-! ### Inventory extraction -/

/-- An inventory record; fields are set only from non-empty trimmed cells. -/
structure InventoryItem where
  in_inventory : Option Bool := none
  device_name : Option String := none
  model : Option String := none
  tac : Option String := none
  solution_type : Option String := none
  nm_flow : Option String := none
  brand : Option String := none
  marketing_name : Option String := none
  serial_number : Option String := none
  imei1 : Option String := none
  imei2 : Option String := none
  received_on : Option String := none
  returned_on : Option String := none
  remark : Option String := none
  comments : Option String := none
  target_customer : Option String := none
  metadata : List (String × String) := []
  inventory_hash : Option String := none
deriving DecidableEq, Repr

/-- Assignment into the open-ended metadata map. -/
def setMeta : List (String × String) → String → String → List (String × String)
  | [], f, v => [(f, v)]
  | (g, w) :: rest, f, v =>
    if g = f then (g, v) :: rest else (g, w) :: setMeta rest f v

/-- The per-field assignment chain of `parseInventorySheet` (the argument is
the already trimmed, non-empty cell string). -/
def applyInvField (item : InventoryItem) (fieldName : String) (stringValue : String) :
    InventoryItem :=
  if fieldName = "in_inventory" then
    let lowVal := lowStr stringValue
    let b := lowVal = "yes" || lowVal = "y" || lowVal = "si" || lowVal = "s" ||
             lowVal = "true" || lowVal = "1"
    { item with in_inventory := some b }
  else if fieldName = "device_name" then { item with device_name := some stringValue }
  else if fieldName = "model" then { item with model := some stringValue }
  else if fieldName = "tac" then { item with tac := some stringValue }
  else if lowStr fieldName = "solution_type" || lowStr fieldName = "target_solution" ||
      lowStr fieldName = "dpc/dlc" || lowStr fieldName = "solution" then
    { item with solution_type := some stringValue }
  else if fieldName = "nm_flow" then { item with nm_flow := some stringValue }
  else if fieldName = "brand" then { item with brand := some stringValue }
  else if fieldName = "marketing_name" then { item with marketing_name := some stringValue }
  else if fieldName = "serial_number" then { item with serial_number := some stringValue }
  else if fieldName = "imei1" then { item with imei1 := some stringValue }
  else if fieldName = "imei2" then { item with imei2 := some stringValue }
  else if fieldName = "received_on" then { item with received_on := some stringValue }
  else if fieldName = "returned_on" then { item with returned_on := some stringValue }
  else if fieldName = "remark" then { item with remark := some stringValue }
  else if fieldName = "comments" || fieldName = "inventory_comments" then
    { item with comments := some stringValue }
  else if fieldName = "target_customer" || fieldName = "customer" then
    { item with target_customer := some (normalizeRegionAndCustomer stringValue) }
  else { item with metadata := setMeta item.metadata fieldName stringValue }

/-- `generateInventoryHash`: lowercase and trim the eight key fields, join
with pipes, SHA-256 hex, first 64 characters. -/
def generateInventoryHash (item : InventoryItem) : String :=
  let fields := [item.brand, item.model, item.serial_number, item.imei1, item.imei2,
                 item.solution_type, item.target_customer, item.nm_flow]
  let keyData := String.intercalate "|" (fields.map (fun f => jsTrim (lowStr (f.getD ""))))
  (sha256hexStr keyData).take 64

/-- The per-row `try` body of `parseInventorySheet`: build the item from the
column map, fingerprint it, and keep it only if it has significant data. -/
def invRowBody (cmap : List (Nat × String)) (values : List String) : Option InventoryItem :=
  let item := cmap.foldl
    (fun it p =>
      let sv := jsTrim (values.getD p.1 "")
      if sv = "" then it else applyInvField it p.2 sv)
    {}
  let item := { item with inventory_hash := some (generateInventoryHash item) }
  if item.model.isSome || item.tac.isSome || item.device_name.isSome ||
      item.serial_number.isSome || item.imei1.isSome then
    some item
  else none

/-- `parseInventorySheet`: header scan with threshold two, then the data-row
loop. -/
def parseInventorySheet (sheetName : String) (ws : List (List String)) :
    List InventoryItem × List ParseError :=
  match findHeaderIn ws 2 [1, 2, 3, 4, 5] with
  | none => ([], [⟨sheetName, 0, "No se encontraron encabezados de inventario válidos"⟩])
  | some (hIdx, cmap) =>
    processDataRows sheetName (fun _ v => .ok (invRowBody cmap v)) (hIdx + 1) (ws.drop hIdx)

/-! ### The inventory loader (`loadInventory` in `databaseLoader.ts`)

The inventory table is modelled as the list of fingerprints it contains.  Each
item is upserted with `ON CONFLICT (inventory_hash) DO UPDATE`; the source
increments `inserted` for every record (its comment: incremented
"simplified"), and never increments `updated`, although the query returns an
`is_update` flag. -/

def loadInventory (items : List InventoryItem) (db : List String) :
    List String × Nat × Nat :=
  items.foldl
    (fun acc item =>
      let h :=
        match item.inventory_hash with
        | some s => if s = "" then generateInventoryHash item else s
        | none => generateInventoryHash item
      let db2 := if h ∈ acc.1 then acc.1 else acc.1 ++ [h]
      (db2, acc.2.1 + 1, acc.2.2))
    (db, 0, 0)

/-- Absence of any split delimiter while scanning a (part of a) string:
no comma, ampersand, slash or newline, and no occurrence of the
case-insensitive whitespace-bounded word "and".  `noCut l = true` means the
split scanner walks all of `l` without cutting. -/
def noCut : List Char → Bool
  | [] => true
  | c :: rest =>
    if isCutChar c then false
    else if isWsChar c then
      (matchAnd (c :: rest)).isNone && c ≠ '\n' && noCut rest
    else noCut rest

/-- The sorted list of cleaned segments whose ", "-join is the normalizer's
output. -/
def normParts (s : String) : List String :=
  sortStr (((splitParts s).map cleanPart).filter (fun x => x ≠ ""))

/-! ## Helper lemmas -/

theorem dropWhile_length_le (p : Char → Bool) (l : List Char) :
    (l.dropWhile p).length ≤ l.length := by
  induction l with
  | nil => simp [List.dropWhile]
  | cons c t ih =>
    rw [List.dropWhile]
    cases p c <;> simp <;> omega

theorem matchAnd_length {cs r : List Char} (h : matchAnd cs = some r) :
    r.length < cs.length := by
  unfold matchAnd at h
  by_cases hw : (cs.takeWhile isWsChar).isEmpty
  · simp [hw] at h
  · simp only [hw, if_false] at h
    have hlen : (cs.dropWhile isWsChar).length < cs.length := by
      have h1 : (cs.takeWhile isWsChar).length + (cs.dropWhile isWsChar).length = cs.length := by
        rw [← List.length_append, List.takeWhile_append_dropWhile]
      have h2 : 0 < (cs.takeWhile isWsChar).length := by
        cases htw : cs.takeWhile isWsChar with
        | nil => rw [htw] at hw; simp at hw
        | cons x xs => simp [htw]
      omega
    cases hr : cs.dropWhile isWsChar with
    | nil => rw [hr] at h; simp at h
    | cons a t1 =>
      cases t1 with
      | nil => rw [hr] at h; simp at h
      | cons n t2 =>
        cases t2 with
        | nil => rw [hr] at h; simp at h
        | cons d rest =>
          rw [hr] at h hlen
          by_cases hl : isLetterOf 'a' a && isLetterOf 'n' n && isLetterOf 'd' d
          · simp only [hl, if_true] at h
            by_cases hw2 : (rest.takeWhile isWsChar).isEmpty
            · simp [hw2] at h
            · simp only [hw2] at h
              simp at h
              have hd : (rest.dropWhile isWsChar).length ≤ rest.length :=
                dropWhile_length_le isWsChar rest
              rw [← h]
              simp only [List.length_cons] at hlen
              omega
          · simp [hl] at h

theorem scanGo_fuel : ∀ (f1 f2 : Nat) (cs acc : List Char),
    cs.length ≤ f1 → cs.length ≤ f2 → scanGo f1 cs acc = scanGo f2 cs acc := by
  intro f1
  induction f1 with
  | zero =>
    intro f2 cs acc h1 _
    have : cs = [] := List.length_eq_zero.mp (Nat.le_zero.mp h1)
    subst this
    cases f2 <;> rfl
  | succ f ih =>
    intro f2 cs acc h1 h2
    cases cs with
    | nil => cases f2 <;> rfl
    | cons c rest =>
      cases f2 with
      | zero => simp at h2
      | succ f2p =>
        simp only [List.length_cons] at h1 h2
        rw [scanGo, scanGo]
        by_cases hc : isCutChar c
        · rw [if_pos hc, if_pos hc, ih f2p rest [] (by omega) (by omega)]
        · rw [if_neg hc, if_neg hc]
          by_cases hwsc : isWsChar c
          · rw [if_pos hwsc, if_pos hwsc]
            cases hm : matchAnd (c :: rest) with
            | some rest2 =>
              have hl : rest2.length < (c :: rest).length := matchAnd_length hm
              simp only [List.length_cons] at hl
              rw [Option.elim_some, Option.elim_some,
                ih f2p rest2 [] (by omega) (by omega)]
            | none =>
              rw [Option.elim_none, Option.elim_none]
              by_cases hnl : c = '\n'
              · rw [if_pos hnl, if_pos hnl, ih f2p rest [] (by omega) (by omega)]
              · rw [if_neg hnl, if_neg hnl, ih f2p rest (c :: acc) (by omega) (by omega)]
          · rw [if_neg hwsc, if_neg hwsc]
            exact ih f2p rest (c :: acc) (by omega) (by omega)

theorem splitWsGo_fuel : ∀ (f1 f2 : Nat) (cs acc : List Char),
    cs.length ≤ f1 → cs.length ≤ f2 → splitWsGo f1 cs acc = splitWsGo f2 cs acc := by
  intro f1
  induction f1 with
  | zero =>
    intro f2 cs acc h1 _
    have : cs = [] := List.length_eq_zero.mp (Nat.le_zero.mp h1)
    subst this
    cases f2 <;> rfl
  | succ f ih =>
    intro f2 cs acc h1 h2
    cases cs with
    | nil => cases f2 <;> rfl
    | cons c rest =>
      cases f2 with
      | zero => simp at h2
      | succ f2p =>
        simp only [List.length_cons] at h1 h2
        rw [splitWsGo, splitWsGo]
        by_cases hwsc : isWsChar c
        · have := dropWhile_length_le isWsChar rest
          rw [if_pos hwsc, if_pos hwsc,
            ih f2p (rest.dropWhile isWsChar) [] (by omega) (by omega)]
        · rw [if_neg hwsc, if_neg hwsc]
          exact ih f2p rest (c :: acc) (by omega) (by omega)


theorem toNat_ofNat_valid {n : Nat} (h : n < 0xD800) : (Char.ofNat n).toNat = n := by
  have hv : n.isValidChar := Or.inl h
  rw [Char.ofNat, dif_pos hv]
  simp [Char.ofNatAux, Char.toNat, UInt32.toNat, UInt32.ofNat']

theorem char_eq_iff {a b : Char} : a = b ↔ a.toNat = b.toNat := by
  constructor
  · intro h; rw [h]
  · intro h
    apply Char.ext
    apply UInt32.ext
    exact h

theorem char_le_iff {a b : Char} : a ≤ b ↔ a.toNat ≤ b.toNat := by
  rw [Char.le_def, UInt32.le_def, BitVec.le_def]
  exact Iff.rfl

theorem lowCh_toNat (c : Char) :
    (lowCh c).toNat =
      if 65 ≤ c.toNat ∧ c.toNat ≤ 90 then c.toNat + 32
      else if 0xC0 ≤ c.toNat ∧ c.toNat ≤ 0xDE ∧ c.toNat ≠ 0xD7 then c.toNat + 32
      else c.toNat := by
  have hA : ('A' : Char).toNat = 65 := by decide
  have hZ : ('Z' : Char).toNat = 90 := by decide
  have hb1 : (('A' ≤ c && c ≤ 'Z') = true) ↔ (65 ≤ c.toNat ∧ c.toNat ≤ 90) := by
    simp only [Bool.and_eq_true, decide_eq_true_eq, char_le_iff, hA, hZ]
  have hb2 : ((0xC0 ≤ c.toNat && c.toNat ≤ 0xDE && c.toNat ≠ 0xD7) = true) ↔
      (0xC0 ≤ c.toNat ∧ c.toNat ≤ 0xDE ∧ c.toNat ≠ 0xD7) := by
    simp only [Bool.and_eq_true, decide_eq_true_eq]
    tauto
  unfold lowCh
  by_cases h1 : 65 ≤ c.toNat ∧ c.toNat ≤ 90
  · rw [if_pos (hb1.mpr h1), if_pos h1]
    exact toNat_ofNat_valid (by omega)
  · rw [if_neg (fun hcc => h1 (hb1.mp hcc)), if_neg h1]
    by_cases h2 : 0xC0 ≤ c.toNat ∧ c.toNat ≤ 0xDE ∧ c.toNat ≠ 0xD7
    · rw [if_pos (hb2.mpr h2), if_pos h2]
      exact toNat_ofNat_valid (by omega)
    · rw [if_neg (fun hcc => h2 (hb2.mp hcc)), if_neg h2]

theorem upCh_toNat (c : Char) :
    (upCh c).toNat =
      if 97 ≤ c.toNat ∧ c.toNat ≤ 122 then c.toNat - 32
      else if 0xE0 ≤ c.toNat ∧ c.toNat ≤ 0xFE ∧ c.toNat ≠ 0xF7 then c.toNat - 32
      else c.toNat := by
  have ha : ('a' : Char).toNat = 97 := by decide
  have hz : ('z' : Char).toNat = 122 := by decide
  have hb1 : (('a' ≤ c && c ≤ 'z') = true) ↔ (97 ≤ c.toNat ∧ c.toNat ≤ 122) := by
    simp only [Bool.and_eq_true, decide_eq_true_eq, char_le_iff, ha, hz]
  have hb2 : ((0xE0 ≤ c.toNat && c.toNat ≤ 0xFE && c.toNat ≠ 0xF7) = true) ↔
      (0xE0 ≤ c.toNat ∧ c.toNat ≤ 0xFE ∧ c.toNat ≠ 0xF7) := by
    simp only [Bool.and_eq_true, decide_eq_true_eq]
    tauto
  unfold upCh
  by_cases h1 : 97 ≤ c.toNat ∧ c.toNat ≤ 122
  · rw [if_pos (hb1.mpr h1), if_pos h1]
    exact toNat_ofNat_valid (by omega)
  · rw [if_neg (fun hcc => h1 (hb1.mp hcc)), if_neg h1]
    by_cases h2 : 0xE0 ≤ c.toNat ∧ c.toNat ≤ 0xFE ∧ c.toNat ≠ 0xF7
    · rw [if_pos (hb2.mpr h2), if_pos h2]
      exact toNat_ofNat_valid (by omega)
    · rw [if_neg (fun hcc => h2 (hb2.mp hcc)), if_neg h2]

theorem upCh_upCh (c : Char) : upCh (upCh c) = upCh c := by
  rw [char_eq_iff, upCh_toNat, upCh_toNat]
  split_ifs <;> omega

theorem lowCh_lowCh (c : Char) : lowCh (lowCh c) = lowCh c := by
  rw [char_eq_iff, lowCh_toNat, lowCh_toNat]
  split_ifs <;> omega

theorem lowCh_upCh (c : Char) : lowCh (upCh c) = lowCh c := by
  rw [char_eq_iff, lowCh_toNat, lowCh_toNat, upCh_toNat]
  split_ifs <;> omega

theorem isWsChar_iff (c : Char) :
    isWsChar c = true ↔
      (c.toNat = 32 ∨ c.toNat = 9 ∨ c.toNat = 10 ∨ c.toNat = 13 ∨
       c.toNat = 11 ∨ c.toNat = 12) := by
  have h1 : (' ' : Char).toNat = 32 := by decide
  have h2 : ('\t' : Char).toNat = 9 := by decide
  have h3 : ('\n' : Char).toNat = 10 := by decide
  have h4 : ('\r' : Char).toNat = 13 := by decide
  have h5 : (Char.ofNat 11).toNat = 11 := by decide
  have h6 : (Char.ofNat 12).toNat = 12 := by decide
  unfold isWsChar
  simp only [Bool.or_eq_true, decide_eq_true_eq, char_eq_iff, h1, h2, h3, h4, h5, h6]
  tauto

theorem isWsChar_upCh (c : Char) : isWsChar (upCh c) = isWsChar c := by
  by_cases h : isWsChar c = true
  · have hn := (isWsChar_iff c).mp h
    have : upCh c = c := by
      rw [char_eq_iff, upCh_toNat]
      split_ifs <;> omega
    rw [this]
  · have hn : ¬ (c.toNat = 32 ∨ c.toNat = 9 ∨ c.toNat = 10 ∨ c.toNat = 13 ∨
        c.toNat = 11 ∨ c.toNat = 12) := fun hh => h ((isWsChar_iff c).mpr hh)
    have hup : ¬ isWsChar (upCh c) = true := by
      intro hh
      have := (isWsChar_iff (upCh c)).mp hh
      rw [upCh_toNat] at this
      revert this
      split_ifs <;> omega
    simp only [Bool.not_eq_true] at h hup
    rw [h, hup]

theorem isWsChar_lowCh (c : Char) : isWsChar (lowCh c) = isWsChar c := by
  by_cases h : isWsChar c = true
  · have hn := (isWsChar_iff c).mp h
    have : lowCh c = c := by
      rw [char_eq_iff, lowCh_toNat]
      split_ifs <;> omega
    rw [this]
  · have hn : ¬ (c.toNat = 32 ∨ c.toNat = 9 ∨ c.toNat = 10 ∨ c.toNat = 13 ∨
        c.toNat = 11 ∨ c.toNat = 12) := fun hh => h ((isWsChar_iff c).mpr hh)
    have hlow : ¬ isWsChar (lowCh c) = true := by
      intro hh
      have := (isWsChar_iff (lowCh c)).mp hh
      rw [lowCh_toNat] at this
      revert this
      split_ifs <;> omega
    simp only [Bool.not_eq_true] at h hlow
    rw [h, hlow]

theorem lowCh_eq_one {c : Char} : lowCh c = '1' ↔ c = '1' := by
  have h49 : ('1' : Char).toNat = 49 := by decide
  rw [char_eq_iff, char_eq_iff, lowCh_toNat, h49]
  split_ifs <;> omega

theorem lowStr_eq_one {s : String} : lowStr s = "1" ↔ s = "1" := by
  constructor
  · intro h
    cases s with
    | mk l =>
      have hd : l.map lowCh = ['1'] := congrArg String.data h
      cases l with
      | nil => simp at hd
      | cons c t =>
        cases t with
        | nil =>
          simp only [List.map_cons, List.map_nil, List.cons.injEq, and_true] at hd
          have hc := lowCh_eq_one.mp hd
          subst hc
          rfl
        | cons d t2 => simp at hd
  · intro h
    rw [h]
    decide

/-! ## Claims -/

/-- Claim C4, counterexample: the typo table does not contain the key
"latam"; normalizing the input string "latam" title-cases it to "Latam", not
"Latam Om" as the claim states. -/
theorem C4_counterexample :
    normalizeRegionAndCustomer "latam" = "Latam" ∧
    normalizeRegionAndCustomer "latam" ≠ "Latam Om" := by
  constructor
  · decide
  · decide

/-- Claim C4, amended: the typo-correction table corrects "om" and
"latam om" (matched case-insensitively as exact segments) to "Latam Om",
but the lone segment "latam" is not in the table and title-cases to
"Latam". -/
theorem C4_amended :
    normalizeRegionAndCustomer "om" = "Latam Om" ∧
    normalizeRegionAndCustomer "OM" = "Latam Om" ∧
    normalizeRegionAndCustomer "latam om" = "Latam Om" ∧
    normalizeRegionAndCustomer "Latam OM" = "Latam Om" ∧
    normalizeRegionAndCustomer "latam" = "Latam" := by
  refine ⟨by decide, by decide, by decide, by decide, by decide⟩

theorem loadInventory_foldl_counts (items : List InventoryItem) :
    ∀ acc : List String × Nat × Nat,
      (items.foldl
        (fun acc item =>
          let h :=
            match item.inventory_hash with
            | some s => if s = "" then generateInventoryHash item else s
            | none => generateInventoryHash item
          let db2 := if h ∈ acc.1 then acc.1 else acc.1 ++ [h]
          (db2, acc.2.1 + 1, acc.2.2)) acc).2 =
      (acc.2.1 + items.length, acc.2.2) := by
  induction items with
  | nil => intro acc; simp
  | cons it rest ih =>
    intro acc
    rw [List.foldl_cons, ih]
    simp
    omega

/-- Claim C8, counterexample: a one-record batch whose fingerprint "h1" is
already present in storage is still counted as an insert by the inventory
loader: the returned counts are (inserted, updated) = (1, 0), not (0, 1) as
the claim requires. -/
theorem C8_counterexample :
    (loadInventory [{ model := some "M1", inventory_hash := some "h1" }] ["h1"]).2 = (1, 0) ∧
    ¬ (loadInventory [{ model := some "M1", inventory_hash := some "h1" }] ["h1"]).2 = (0, 1) := by
  constructor
  · decide
  · decide

/-- Claim C8, amended: the inventory loader upserts by fingerprint (the row
set keyed by fingerprint gains only genuinely new fingerprints), but its
returned counts do not distinguish inserts from updates: every record in the
batch increments `inserted` and `updated` is always 0, so the counts are
(batch length, 0) regardless of which fingerprints already exist. -/
theorem C8_amended (items : List InventoryItem) (db : List String) :
    (loadInventory items db).2.1 = items.length ∧ (loadInventory items db).2.2 = 0 := by
  unfold loadInventory
  rw [loadInventory_foldl_counts items (db, 0, 0)]
  simp

/-- Claim C2, counterexample: the dual-SIM converter does not accept "si"
or "s" (those spellings are only accepted by the inventory `in_inventory`
conversion); it returns false for them, while the claim requires true. -/
theorem C2_counterexample :
    convertValue (fun _ => none) "dual_sim" "si" = RVal.bool false ∧
    convertValue (fun _ => none) "dual_sim" " S " = RVal.bool false ∧
    convertValue (fun _ => none) "dual_sim" "s" = RVal.bool false := by
  refine ⟨by decide, by decide, by decide⟩

/-- Claim C2, amended: for every input string, the dual-SIM converter
returns a boolean that is true exactly when the trimmed lowercase value is
one of "y", "yes", "true", "1" — "si" and "s" are not accepted and yield
false, as does every other value including the empty string. -/
theorem C2_amended (fb : String → Option String) (v : String) :
    convertValue fb "dual_sim" v =
      RVal.bool (decide (lowStr (jsTrim v) = "y" ∨ lowStr (jsTrim v) = "yes" ∨
                         lowStr (jsTrim v) = "true" ∨ lowStr (jsTrim v) = "1")) := by
  unfold convertValue
  rw [if_neg (by decide), if_neg (by decide), if_neg (by decide), if_pos (by decide)]
  congr 1
  rw [Bool.eq_iff_iff]
  simp only [Bool.or_eq_true, decide_eq_true_eq]
  rw [lowStr_eq_one]
  tauto

theorem takeWhile_append_all {p : Char → Bool} :
    ∀ {l m : List Char}, (∀ x ∈ l, p x = true) →
      (l ++ m).takeWhile p = l ++ m.takeWhile p := by
  intro l
  induction l with
  | nil => intro m _; simp
  | cons c t ih =>
    intro m h
    have hc : p c = true := h c (by simp)
    simp only [List.cons_append, List.takeWhile_cons, hc, if_true]
    rw [ih (fun x hx => h x (by simp [hx]))]

theorem dropWhile_append_all {p : Char → Bool} :
    ∀ {l m : List Char}, (∀ x ∈ l, p x = true) →
      (l ++ m).dropWhile p = m.dropWhile p := by
  intro l
  induction l with
  | nil => intro m _; simp
  | cons c t ih =>
    intro m h
    have hc : p c = true := h c (by simp)
    simp only [List.cons_append, List.dropWhile_cons, hc, if_true]
    exact ih (fun x hx => h x (by simp [hx]))

theorem takeWhile_cons_neg {p : Char → Bool} {c : Char} {m : List Char} (h : p c = false) :
    (c :: m).takeWhile p = [] := by
  simp [List.takeWhile_cons, h]

theorem dropWhile_cons_neg {p : Char → Bool} {c : Char} {m : List Char} (h : p c = false) :
    (c :: m).dropWhile p = c :: m := by
  simp [List.dropWhile_cons, h]

theorem dropWhile_all_neg {p : Char → Bool} :
    ∀ {l : List Char}, (∀ x ∈ l, p x = false) → l.dropWhile p = l := by
  intro l
  induction l with
  | nil => intro _; simp
  | cons c t ih =>
    intro h
    rw [dropWhile_cons_neg (h c (by simp))]

theorem jsTrimChars_all_nonws {l : List Char} (h : ∀ x ∈ l, isWsChar x = false) :
    jsTrimChars l = l := by
  unfold jsTrimChars
  rw [dropWhile_all_neg h, dropWhile_all_neg (fun x hx => h x (List.mem_reverse.mp hx)),
    List.reverse_reverse]

theorem isDigitCh_iff (c : Char) : isDigitCh c = true ↔ 48 ≤ c.toNat ∧ c.toNat ≤ 57 := by
  have h0 : ('0' : Char).toNat = 48 := by decide
  have h9 : ('9' : Char).toNat = 57 := by decide
  unfold isDigitCh
  simp only [Bool.and_eq_true, decide_eq_true_eq, char_le_iff, h0, h9]

theorem isDigitCh_nonws {c : Char} (h : isDigitCh c = true) : isWsChar c = false := by
  have hn := (isDigitCh_iff c).mp h
  by_cases hw : isWsChar c = true
  · have := (isWsChar_iff c).mp hw
    omega
  · simpa using hw

theorem string_mk_data (s : String) : (⟨s.data⟩ : String) = s := by
  cases s
  rfl

/-- Claim C10: the date parser performs no calendar-range validation on its
numeric day-month-year pattern: any string made of one-or-two digits, a slash
or hyphen, one-or-two digits, a slash or hyphen (the two separators chosen
independently), and four digits is reassembled as `YYYY-MM-DD` with the first
number zero-padded as day and the second as month, regardless of whether the
numbers form a real calendar date — and the generic-date fallback is never
consulted for such strings. -/
theorem C10_date_no_validation (fb : String → Option String) (d m y : String) (c1 c2 : Char)
    (hd1 : d.data ≠ []) (hd2 : d.data.length ≤ 2) (hd3 : ∀ x ∈ d.data, isDigitCh x = true)
    (hm1 : m.data ≠ []) (hm2 : m.data.length ≤ 2) (hm3 : ∀ x ∈ m.data, isDigitCh x = true)
    (hy1 : y.data.length = 4) (hy3 : ∀ x ∈ y.data, isDigitCh x = true)
    (hc1 : c1 = '/' ∨ c1 = '-') (hc2 : c2 = '/' ∨ c2 = '-') :
    parseDate fb (d ++ ⟨[c1]⟩ ++ m ++ ⟨[c2]⟩ ++ y) =
      some (y ++ "-" ++ pad2 m ++ "-" ++ pad2 d) := by
  have hdata : (d ++ ⟨[c1]⟩ ++ m ++ ⟨[c2]⟩ ++ y).data =
      d.data ++ c1 :: (m.data ++ c2 :: y.data) := by
    simp [String.data_append]
  have hc1d : isDigitCh c1 = false := by rcases hc1 with h | h <;> subst h <;> decide
  have hc2d : isDigitCh c2 = false := by rcases hc2 with h | h <;> subst h <;> decide
  have hc1w : isWsChar c1 = false := by rcases hc1 with h | h <;> subst h <;> decide
  have hc2w : isWsChar c2 = false := by rcases hc2 with h | h <;> subst h <;> decide
  have hc1s : isSepCh c1 = true := by rcases hc1 with h | h <;> subst h <;> decide
  have hc2s : isSepCh c2 = true := by rcases hc2 with h | h <;> subst h <;> decide
  have hnonws : ∀ x ∈ (d ++ ⟨[c1]⟩ ++ m ++ ⟨[c2]⟩ ++ y).data, isWsChar x = false := by
    rw [hdata]
    intro x hx
    simp only [List.mem_append, List.mem_cons] at hx
    rcases hx with h | h | h | h | h
    · exact isDigitCh_nonws (hd3 x h)
    · rw [h]; exact hc1w
    · exact isDigitCh_nonws (hm3 x h)
    · rw [h]; exact hc2w
    · exact isDigitCh_nonws (hy3 x h)
  have htrim : jsTrim (d ++ ⟨[c1]⟩ ++ m ++ ⟨[c2]⟩ ++ y) = d ++ ⟨[c1]⟩ ++ m ++ ⟨[c2]⟩ ++ y := by
    unfold jsTrim
    rw [jsTrimChars_all_nonws hnonws, string_mk_data]
  have hne : ¬ (d ++ ⟨[c1]⟩ ++ m ++ ⟨[c2]⟩ ++ y = "") := by
    intro h
    have h2 := congrArg String.data h
    rw [hdata] at h2
    simp at h2
  have hpos : 0 < d.data.length := List.length_pos.mpr hd1
  have hposm : 0 < m.data.length := List.length_pos.mpr hm1
  have hdm : matchDMY (d ++ ⟨[c1]⟩ ++ m ++ ⟨[c2]⟩ ++ y) = some (d, m, y) := by
    unfold matchDMY
    rw [hdata]
    dsimp only []
    simp only [takeWhile_append_all hd3, takeWhile_cons_neg hc1d, List.append_nil,
      dropWhile_append_all hd3, dropWhile_cons_neg hc1d]
    rw [if_neg (by simp only [Bool.or_eq_true, decide_eq_true_eq]; omega)]
    rw [if_neg (by simp)]
    simp only [List.headD_cons, List.tail_cons]
    rw [if_pos (by rw [hc1s])]
    simp only [takeWhile_append_all hm3, takeWhile_cons_neg hc2d, List.append_nil,
      dropWhile_append_all hm3, dropWhile_cons_neg hc2d]
    rw [if_neg (by simp only [Bool.or_eq_true, decide_eq_true_eq]; omega)]
    rw [if_neg (by simp)]
    simp only [List.headD_cons, List.tail_cons]
    rw [if_pos (by rw [hc2s])]
    have hy4 : (decide (y.data.length = 4) && y.data.all isDigitCh) = true := by
      simp only [Bool.and_eq_true, decide_eq_true_eq, List.all_eq_true]
      exact ⟨hy1, hy3⟩
    rw [if_pos hy4, string_mk_data, string_mk_data, string_mk_data]
  have hiso : isIsoDate (d ++ ⟨[c1]⟩ ++ m ++ ⟨[c2]⟩ ++ y) = false := by
    unfold isIsoDate
    rw [hdata]
    rcases hyy : y.data with _ | ⟨y0, t1⟩
    · rw [hyy] at hy1; simp at hy1
    rcases ht1 : t1 with _ | ⟨y1, t2⟩
    · rw [hyy, ht1] at hy1; simp at hy1
    rcases ht2 : t2 with _ | ⟨y2, t3⟩
    · rw [hyy, ht1, ht2] at hy1; simp at hy1
    rcases ht3 : t3 with _ | ⟨y3, t4⟩
    · rw [hyy, ht1, ht2, ht3] at hy1; simp at hy1
    rcases ht4 : t4 with _ | ⟨y4, t5⟩
    swap
    · rw [hyy, ht1, ht2, ht3, ht4] at hy1; simp at hy1
    rcases hdd : d.data with _ | ⟨d0, dt⟩
    · exact absurd hdd hd1
    rcases hdt : dt with _ | ⟨d1, dt2⟩
    · rcases hmm : m.data with _ | ⟨m0, mt⟩
      · exact absurd hmm hm1
      rcases hmt : mt with _ | ⟨m1, mt2⟩
      · rfl
      rcases hmt2 : mt2 with _ | ⟨m2, mt3⟩
      · rfl
      · rw [hmm, hmt, hmt2] at hm2; simp at hm2
    rcases hdt2 : dt2 with _ | ⟨d2, dt3⟩
    swap
    · rw [hdd, hdt, hdt2] at hd2; simp at hd2
    rcases hmm : m.data with _ | ⟨m0, mt⟩
    · exact absurd hmm hm1
    rcases hmt : mt with _ | ⟨m1, mt2⟩
    · rfl
    rcases hmt2 : mt2 with _ | ⟨m2, mt3⟩
    swap
    · rw [hmm, hmt, hmt2] at hm2; simp at hm2
    simp [hc1d]
  unfold parseDate
  rw [if_neg hne, htrim, if_neg hne, hiso]
  simp only [Bool.false_eq_true, if_false]
  rw [hdm]

/-- Claim C10, witness: "31/13/2024" (month 13) is reassembled as
"2024-13-31" rather than rejected, and the mixed-separator "15/03-2024"
is accepted. -/
theorem C10_witness :
    parseDate (fun _ => none) "31/13/2024" = some "2024-13-31" ∧
    parseDate (fun _ => none) "15/03-2024" = some "2024-03-15" := by
  constructor
  · calc parseDate (fun _ => none) "31/13/2024"
        = parseDate (fun _ => none) ("31" ++ ⟨['/']⟩ ++ "13" ++ ⟨['/']⟩ ++ "2024") := by
          rw [show ("31/13/2024" : String) = "31" ++ ⟨['/']⟩ ++ "13" ++ ⟨['/']⟩ ++ "2024" by
            decide]
      _ = some ("2024" ++ "-" ++ pad2 "13" ++ "-" ++ pad2 "31") :=
          C10_date_no_validation (fun _ => none) "31" "13" "2024" '/' '/'
            (by decide) (by decide) (by decide) (by decide) (by decide) (by decide)
            (by decide) (by decide) (by decide) (by decide)
      _ = some "2024-13-31" := by decide
  · calc parseDate (fun _ => none) "15/03-2024"
        = parseDate (fun _ => none) ("15" ++ ⟨['/']⟩ ++ "03" ++ ⟨['-']⟩ ++ "2024") := by
          rw [show ("15/03-2024" : String) = "15" ++ ⟨['/']⟩ ++ "03" ++ ⟨['-']⟩ ++ "2024" by
            decide]
      _ = some ("2024" ++ "-" ++ pad2 "03" ++ "-" ++ pad2 "15") :=
          C10_date_no_validation (fun _ => none) "15" "03" "2024" '/' '-'
            (by decide) (by decide) (by decide) (by decide) (by decide) (by decide)
            (by decide) (by decide) (by decide) (by decide)
      _ = some "2024-03-15" := by decide

theorem rvGet_setField_other (r : RecT) (f g : String) (v : RVal) (h : g ≠ f) :
    rvGet (setField r f v) g = rvGet r g := by
  induction r with
  | nil =>
    have hgf : (g == f) = false := by simpa using h
    simp [setField, rvGet, List.lookup, hgf]
  | cons p rest ih =>
    obtain ⟨k, w⟩ := p
    by_cases hk : k = f
    · subst hk
      have hgk : (g == k) = false := by simpa using h
      simp [setField, rvGet, List.lookup, hgk]
    · by_cases hg : g = k
      · subst hg
        simp [setField, rvGet, List.lookup, hk]
      · have hgk : (g == k) = false := by simpa using hg
        simp [setField, rvGet, List.lookup, hk, hgk]
        simpa [rvGet] using ih

/-- Claim C9: the device fingerprint is computed only from the seven key
fields (device, model, tac, build, target region, target solution, target
customer): any two records agreeing on those fields hash identically no
matter how the other fields (brand, status, dates, comments, ...) differ; in
particular overwriting the brand — as the file-name brand override does —
never changes the fingerprint. -/
theorem C9_hash_key_fields :
    (∀ r1 r2 : RecT, (∀ f ∈ DEVICE_KEY_FIELDS, rvGet r1 f = rvGet r2 f) →
      generateDeviceHash r1 = generateDeviceHash r2) ∧
    (∀ (r : RecT) (b : String),
      generateDeviceHash (setField r "brand" (RVal.str b)) = generateDeviceHash r) := by
  have hmain : ∀ r1 r2 : RecT, (∀ f ∈ DEVICE_KEY_FIELDS, rvGet r1 f = rvGet r2 f) →
      generateDeviceHash r1 = generateDeviceHash r2 := by
    intro r1 r2 h
    unfold generateDeviceHash
    have hm : DEVICE_KEY_FIELDS.map (fun f => jsTrim (lowStr (stringOrEmpty (rvGet r1 f)))) =
        DEVICE_KEY_FIELDS.map (fun f => jsTrim (lowStr (stringOrEmpty (rvGet r2 f)))) := by
      apply List.map_congr_left
      intro f hf
      rw [h f hf]
    rw [hm]
  refine ⟨hmain, ?_⟩
  intro r b
  apply hmain
  intro f hf
  apply rvGet_setField_other
  intro hfb
  rw [hfb] at hf
  revert hf
  decide

/-- Claim C9, witness: two records sharing device name "X" but with
different brands and an extra comment field hash identically, and applying
the brand override to a record leaves its fingerprint unchanged. -/
theorem C9_witness :
    generateDeviceHash [("device", RVal.str "X"), ("brand", RVal.str "A")] =
      generateDeviceHash
        [("device", RVal.str "X"), ("brand", RVal.str "B"), ("comments", RVal.str "zz")] ∧
    generateDeviceHash (setField [("device", RVal.str "X")] "brand" (RVal.str "Samsung")) =
      generateDeviceHash [("device", RVal.str "X")] :=
  ⟨C9_hash_key_fields.1 _ _ (by decide), C9_hash_key_fields.2 _ _⟩

theorem normalize_eq_formula (s : String) :
    normalizeRegionAndCustomer s =
      String.intercalate ", "
        (sortStr (((splitParts s).map cleanPart).filter (fun x => x ≠ ""))) := by
  unfold normalizeRegionAndCustomer
  by_cases h : s = ""
  · subst h
    decide
  · rw [if_neg h]

theorem sortStr_perm_eq {l1 l2 : List String} (h : l1.Perm l2) : sortStr l1 = sortStr l2 := by
  unfold sortStr
  apply List.eq_of_perm_of_sorted (r := jsStrLe)
    ((List.perm_insertionSort jsStrLe l1).trans (h.trans (List.perm_insertionSort jsStrLe l2).symm))
  · exact List.sorted_insertionSort jsStrLe l1
  · exact List.sorted_insertionSort jsStrLe l2

theorem normalize_perm {t1 t2 : String} (h : (splitParts t1).Perm (splitParts t2)) :
    normalizeRegionAndCustomer t1 = normalizeRegionAndCustomer t2 := by
  rw [normalize_eq_formula, normalize_eq_formula]
  congr 1
  exact sortStr_perm_eq ((h.map cleanPart).filter (fun x => x ≠ ""))

/-- Claim C1: for every record and any two raw region (or customer) strings
whose trimmed forms split into the same segments up to order, converting the
field (which normalizes: split, correct, title-case, sort, rejoin) and then
fingerprinting yields the identical digest — the fingerprint input is
order-insensitive in those fields because the normalizer sorts the
segments. -/
theorem C1_perm_invariant (r : RecT) (fb : String → Option String) (f : String)
    (s1 s2 : String) (hf : f = "target_region" ∨ f = "target_customer")
    (hperm : (splitParts (jsTrim s1)).Perm (splitParts (jsTrim s2))) :
    generateDeviceHash (setField r f (convertValue fb f s1)) =
      generateDeviceHash (setField r f (convertValue fb f s2)) := by
  have hconv : ∀ s : String, convertValue fb f s =
      RVal.str (normalizeRegionAndCustomer (jsTrim s)) := by
    intro s
    unfold convertValue
    rcases hf with h | h <;> subst h <;> rw [if_pos (by simp)]
  rw [hconv s1, hconv s2, normalize_perm hperm]

/-- Claim C1, witness: the region lists "peru,MXICO" and "MXICO,peru" are
permutations of one another and produce the same device fingerprint. -/
theorem C1_witness :
    generateDeviceHash
        (setField [] "target_region" (convertValue (fun _ => none) "target_region" "peru,MXICO")) =
      generateDeviceHash
        (setField [] "target_region"
          (convertValue (fun _ => none) "target_region" "MXICO,peru")) :=
  C1_perm_invariant [] (fun _ => none) "target_region" "peru,MXICO" "MXICO,peru"
    (Or.inl rfl) (by decide)

/-- Claim C6: the data-row loop never throws: it is a total function whose
error list is exactly one ParseError — carrying the sheet name and the row's
index — per non-blank row whose transform fails, and whose record list is
exactly the successful transforms of the other non-blank rows, in order.
Row-level failures therefore never abort sheet-level extraction, and all
records from non-failing rows are still returned. -/
theorem C6_row_error_containment {α : Type} (sheet : String)
    (body : Nat → List String → Except String (Option α)) (i : Nat)
    (rows : List (List String)) :
    (processDataRows sheet body i rows).2 =
      (List.enumFrom i rows).filterMap (fun p =>
        if allBlank p.2 then none
        else match body p.1 p.2 with
          | .error msg => some ⟨sheet, p.1, msg⟩
          | .ok _ => none) ∧
    (processDataRows sheet body i rows).1 =
      (List.enumFrom i rows).filterMap (fun p =>
        if allBlank p.2 then none
        else match body p.1 p.2 with
          | .error _ => none
          | .ok o => o) := by
  induction rows generalizing i with
  | nil => simp [processDataRows]
  | cons v rest ih =>
    obtain ⟨ih1, ih2⟩ := ih (i + 1)
    simp only [processDataRows, List.enumFrom_cons, List.filterMap_cons]
    by_cases hb : allBlank v
    · simp [hb, ih1, ih2]
    · simp only [hb, Bool.false_eq_true, if_false]
      rcases hbody : body i v with msg | o
      · simp [hbody, ih1, ih2]
      · rcases o with _ | a
        · simp [hbody, ih1, ih2]
        · simp [hbody, ih1, ih2]

theorem findHeaderIn_none_of (ws : List (List String)) (minSize : Nat) :
    ∀ is : List Nat, (∀ i ∈ is, (createColumnMap (getRow ws i)).length < minSize) →
      findHeaderIn ws minSize is = none := by
  intro is
  induction is with
  | nil => intro _; rfl
  | cons i rest ih =>
    intro h
    simp only [findHeaderIn]
    rw [if_neg (by have := h i (by simp); omega)]
    exact ih (fun j hj => h j (by simp [hj]))

theorem findHeaderIn_5_spec (ws : List (List String)) (minSize hIdx : Nat)
    (cmap : List (Nat × String))
    (h : findHeaderIn ws minSize [1, 2, 3, 4, 5] = some (hIdx, cmap)) :
    1 ≤ hIdx ∧ hIdx ≤ 5 ∧ cmap = createColumnMap (getRow ws hIdx) ∧
    minSize ≤ cmap.length ∧
    ∀ j, 1 ≤ j → j < hIdx → (createColumnMap (getRow ws j)).length < minSize := by
  simp only [findHeaderIn] at h
  by_cases h1 : minSize ≤ (createColumnMap (getRow ws 1)).length
  · rw [if_pos h1] at h
    obtain ⟨rfl, rfl⟩ : 1 = hIdx ∧ createColumnMap (getRow ws 1) = cmap := by
      have h2 := Option.some.inj h
      exact ⟨congrArg Prod.fst h2, congrArg Prod.snd h2⟩
    exact ⟨by omega, by omega, rfl, h1, fun j hj1 hj2 => by omega⟩
  · rw [if_neg h1] at h
    by_cases h2 : minSize ≤ (createColumnMap (getRow ws 2)).length
    · rw [if_pos h2] at h
      obtain ⟨rfl, rfl⟩ : 2 = hIdx ∧ createColumnMap (getRow ws 2) = cmap := by
        have h3 := Option.some.inj h
        exact ⟨congrArg Prod.fst h3, congrArg Prod.snd h3⟩
      refine ⟨by omega, by omega, rfl, h2, fun j hj1 hj2 => ?_⟩
      have : j = 1 := by omega
      subst this
      omega
    · rw [if_neg h2] at h
      by_cases h3 : minSize ≤ (createColumnMap (getRow ws 3)).length
      · rw [if_pos h3] at h
        obtain ⟨rfl, rfl⟩ : 3 = hIdx ∧ createColumnMap (getRow ws 3) = cmap := by
          have h4 := Option.some.inj h
          exact ⟨congrArg Prod.fst h4, congrArg Prod.snd h4⟩
        refine ⟨by omega, by omega, rfl, h3, fun j hj1 hj2 => ?_⟩
        have : j = 1 ∨ j = 2 := by omega
        rcases this with rfl | rfl <;> omega
      · rw [if_neg h3] at h
        by_cases h4 : minSize ≤ (createColumnMap (getRow ws 4)).length
        · rw [if_pos h4] at h
          obtain ⟨rfl, rfl⟩ : 4 = hIdx ∧ createColumnMap (getRow ws 4) = cmap := by
            have h5 := Option.some.inj h
            exact ⟨congrArg Prod.fst h5, congrArg Prod.snd h5⟩
          refine ⟨by omega, by omega, rfl, h4, fun j hj1 hj2 => ?_⟩
          have : j = 1 ∨ j = 2 ∨ j = 3 := by omega
          rcases this with rfl | rfl | rfl <;> omega
        · rw [if_neg h4] at h
          by_cases h5 : minSize ≤ (createColumnMap (getRow ws 5)).length
          · rw [if_pos h5] at h
            obtain ⟨rfl, rfl⟩ : 5 = hIdx ∧ createColumnMap (getRow ws 5) = cmap := by
              have h6 := Option.some.inj h
              exact ⟨congrArg Prod.fst h6, congrArg Prod.snd h6⟩
            refine ⟨by omega, by omega, rfl, h5, fun j hj1 hj2 => ?_⟩
            have : j = 1 ∨ j = 2 ∨ j = 3 ∨ j = 4 := by omega
            rcases this with rfl | rfl | rfl | rfl <;> omega
          · rw [if_neg h5] at h
            exact absurd h (by simp [findHeaderIn])

/-- Claim C3: the header search looks only at rows 1 through 5 and takes the
first row whose resolved column map has at least 3 entries (devices) or 2
entries (inventory); when no row among the first five qualifies — even if a
later row such as row 6 would — the sheet yields zero records and exactly
one ParseError at row 0. -/
theorem C3_header_scan (fb : String → Option String) (sheet : String)
    (brand : Option String) (ws : List (List String)) :
    ((∀ i ∈ ([1, 2, 3, 4, 5] : List Nat), (createColumnMap (getRow ws i)).length < 3) →
      parseDevicesSheet fb sheet brand ws =
        ([], [⟨sheet, 0, "No se encontraron encabezados válidos en la hoja"⟩])) ∧
    ((∀ i ∈ ([1, 2, 3, 4, 5] : List Nat), (createColumnMap (getRow ws i)).length < 2) →
      parseInventorySheet sheet ws =
        ([], [⟨sheet, 0, "No se encontraron encabezados de inventario válidos"⟩])) ∧
    (∀ hIdx cmap, findHeaderIn ws 3 [1, 2, 3, 4, 5] = some (hIdx, cmap) →
      1 ≤ hIdx ∧ hIdx ≤ 5 ∧ cmap = createColumnMap (getRow ws hIdx) ∧
      3 ≤ cmap.length ∧
      ∀ j, 1 ≤ j → j < hIdx → (createColumnMap (getRow ws j)).length < 3) ∧
    (∀ hIdx cmap, findHeaderIn ws 2 [1, 2, 3, 4, 5] = some (hIdx, cmap) →
      1 ≤ hIdx ∧ hIdx ≤ 5 ∧ cmap = createColumnMap (getRow ws hIdx) ∧
      2 ≤ cmap.length ∧
      ∀ j, 1 ≤ j → j < hIdx → (createColumnMap (getRow ws j)).length < 2) := by
  refine ⟨?_, ?_, fun hIdx cmap h => findHeaderIn_5_spec ws 3 hIdx cmap h,
    fun hIdx cmap h => findHeaderIn_5_spec ws 2 hIdx cmap h⟩
  · intro h
    unfold parseDevicesSheet
    rw [findHeaderIn_none_of ws 3 [1, 2, 3, 4, 5] h]
  · intro h
    unfold parseInventorySheet
    rw [findHeaderIn_none_of ws 2 [1, 2, 3, 4, 5] h]

/-- Claim C3, witness: a device sheet and an inventory sheet whose real
headers sit on row 6 produce zero records and the single structural
ParseError at row 0. -/
theorem C3_witness :
    parseDevicesSheet (fun _ => none) "S" none
        [[], [], [], [], [], ["Brand", "Device Name", "Model"], ["Acme", "X", "Y"]] =
      ([], [⟨"S", 0, "No se encontraron encabezados válidos en la hoja"⟩]) ∧
    parseInventorySheet "I"
        [[], [], [], [], [], ["Model", "Serial Number"], ["M1", "S1"]] =
      ([], [⟨"I", 0, "No se encontraron encabezados de inventario válidos"⟩]) :=
  ⟨(C3_header_scan (fun _ => none) "S" none
      [[], [], [], [], [], ["Brand", "Device Name", "Model"], ["Acme", "X", "Y"]]).1
      (by decide),
   (C3_header_scan (fun _ => none) "I" none
      [[], [], [], [], [], ["Model", "Serial Number"], ["M1", "S1"]]).2.1
      (by decide)⟩

/-- Claim C7: a non-blank data row whose mapped device and model fields are
both empty (null, or whitespace-only after trimming) contributes neither a
record nor a ParseError — extraction of the remaining rows is exactly as if
the row were absent, regardless of the other fields; and any record with a
non-empty trimmed device or model passes the validity gate. -/
theorem C7_validity_gate (fb : String → Option String) (brand : Option String)
    (cmap : List (Nat × String)) (sheet : String) (i : Nat)
    (values : List String) (rest : List (List String))
    (hblank : allBlank values = false)
    (hdev : hasContent (rvGet (mapRowToRecord fb values cmap) "device") = false)
    (hmod : hasContent (rvGet (mapRowToRecord fb values cmap) "model") = false) :
    processDataRows sheet (fun j v => .ok (deviceRowBody fb brand cmap sheet j v)) i
        (values :: rest) =
      processDataRows sheet (fun j v => .ok (deviceRowBody fb brand cmap sheet j v)) (i + 1)
        rest ∧
    ∀ r : RecT,
      (hasContent (rvGet r "device") = true ∨ hasContent (rvGet r "model") = true) →
      isValidRecord r = true := by
  constructor
  · have hvalid : isValidRecord (mapRowToRecord fb values cmap) = false := by
      unfold isValidRecord
      rw [hdev, hmod]
      rfl
    have hbody : deviceRowBody fb brand cmap sheet i values = none := by
      unfold deviceRowBody
      rw [if_pos (by simp [hvalid])]
    simp only [processDataRows, hblank, Bool.false_eq_true, if_false, hbody]
  · intro r hr
    unfold isValidRecord
    rcases hr with h | h <;> simp [h]

/-- Claim C7, witness: the row ["", "  ", "Acme"] under a map sending
columns 0, 1, 2 to device, model, brand is non-blank, has empty device and
whitespace-only model, and is dropped silently; and a record with device
"X" passes the gate. -/
theorem C7_witness :
    processDataRows "S"
        (fun j v =>
          .ok (deviceRowBody (fun _ => none) none [(0, "device"), (1, "model"), (2, "brand")]
            "S" j v)) 2 [["", "  ", "Acme"]] =
      processDataRows "S"
        (fun j v =>
          .ok (deviceRowBody (fun _ => none) none [(0, "device"), (1, "model"), (2, "brand")]
            "S" j v)) 3 [] ∧
    isValidRecord [("device", RVal.str "X")] = true := by
  have h := C7_validity_gate (fun _ => none) none [(0, "device"), (1, "model"), (2, "brand")]
    "S" 2 ["", "  ", "Acme"] [] (by decide) (by decide) (by decide)
  exact ⟨h.1, h.2 [("device", RVal.str "X")] (Or.inl (by decide))⟩

/-- Claim C5, counterexample: the normalizer is not idempotent on every
string: "and foo, ab" normalizes to "Ab, And Foo", but normalizing that
output again splits "And Foo" at the whitespace-bounded word "And" that the
", "-rejoin exposed, giving "Ab, Foo". -/
theorem C5_counterexample :
    normalizeRegionAndCustomer (normalizeRegionAndCustomer "and foo, ab") ≠
      normalizeRegionAndCustomer "and foo, ab" ∧
    normalizeRegionAndCustomer "and foo, ab" = "Ab, And Foo" ∧
    normalizeRegionAndCustomer "Ab, And Foo" = "Ab, Foo" := by
  refine ⟨by decide, by decide, by decide⟩

theorem dropWhile_head_false {p : Char → Bool} :
    ∀ (l : List Char) {x : Char} {r : List Char}, l.dropWhile p = x :: r → p x = false := by
  intro l
  induction l with
  | nil => intro x r h; simp at h
  | cons c t ih =>
    intro x r h
    rw [List.dropWhile_cons] at h
    by_cases hc : p c
    · rw [if_pos hc] at h
      exact ih h
    · rw [if_neg hc] at h
      obtain ⟨rfl, rfl⟩ := List.cons.inj h
      simpa using hc

theorem takeWhile_members {p : Char → Bool} :
    ∀ {l : List Char} {x : Char}, x ∈ l.takeWhile p → p x = true := by
  intro l
  induction l with
  | nil => intro x h; simp at h
  | cons c t ih =>
    intro x h
    rw [List.takeWhile_cons] at h
    by_cases hc : p c
    · rw [if_pos hc] at h
      rcases List.mem_cons.mp h with rfl | h2
      · exact hc
      · exact ih h2
    · rw [if_neg hc] at h
      simp at h

theorem takeWhile_append_of_stop {p : Char → Bool} {l : List Char} {x : Char} {r2 : List Char}
    (hds : l.dropWhile p = x :: r2) (U : List Char) :
    (l ++ U).takeWhile p = l.takeWhile p ∧ (l ++ U).dropWhile p = x :: (r2 ++ U) := by
  have hx : p x = false := dropWhile_head_false l hds
  have hdec : l.takeWhile p ++ l.dropWhile p = l := List.takeWhile_append_dropWhile p l
  have hall : ∀ y ∈ l.takeWhile p, p y = true := fun y hy => takeWhile_members hy
  constructor
  · conv =>
      lhs
      rw [← hdec, hds]
    rw [List.append_assoc, takeWhile_append_all hall, List.cons_append,
      takeWhile_cons_neg hx, List.append_nil]
  · conv =>
      lhs
      rw [← hdec, hds]
    rw [List.append_assoc, dropWhile_append_all hall, List.cons_append,
      dropWhile_cons_neg hx]

theorem matchAnd_append_comma {S T : List Char} (h : matchAnd S = none) :
    matchAnd (S ++ ',' :: T) = none := by
  rcases hds : S.dropWhile isWsChar with _ | ⟨x, r2⟩
  · -- S is all whitespace: the comma stops both the leading run and the word
    have hS : S.takeWhile isWsChar = S := by
      have hdec : S.takeWhile isWsChar ++ S.dropWhile isWsChar = S :=
        List.takeWhile_append_dropWhile isWsChar S
      rw [hds, List.append_nil] at hdec
      exact hdec
    have hall : ∀ y ∈ S, isWsChar y = true := by
      intro y hy
      rw [← hS] at hy
      exact takeWhile_members hy
    unfold matchAnd
    dsimp only []
    rw [takeWhile_append_all hall, takeWhile_cons_neg (by decide), List.append_nil,
      dropWhile_append_all hall, dropWhile_cons_neg (by decide)]
    rcases T with _ | ⟨t0, T2⟩
    · split <;> rfl
    · rcases T2 with _ | ⟨t1, T3⟩
      · split <;> rfl
      · split <;> rfl
  · obtain ⟨htw, hdw⟩ := takeWhile_append_of_stop hds (',' :: T)
    unfold matchAnd at h ⊢
    dsimp only [] at h ⊢
    rw [htw, hdw]
    rw [hds] at h
    by_cases hw : (S.takeWhile isWsChar).isEmpty = true
    · rw [if_pos hw]
    · rw [if_neg hw] at h ⊢
      rcases r2 with _ | ⟨n1, r3⟩
      · -- just one non-whitespace character before the comma
        rcases T with _ | ⟨t0, T2⟩
        · rfl
        · have hn : isLetterOf 'n' ',' = false := by decide
          simp [hn]
      · rcases r3 with _ | ⟨d1, r4⟩
        · -- two characters before the comma
          have hd : isLetterOf 'd' ',' = false := by decide
          simp [hd]
        · -- at least three characters: same letter test as in S
          simp only [List.cons_append, List.nil_append]
          by_cases hlet : (isLetterOf 'a' x && isLetterOf 'n' n1 && isLetterOf 'd' d1) = true
          · simp only [hlet, if_true] at h ⊢
            have hr4 : (r4.takeWhile isWsChar).isEmpty = true := by
              by_contra hcon
              rw [if_neg hcon] at h
              exact Option.some_ne_none _ h
            rcases r4 with _ | ⟨u, r5⟩
            · rw [if_pos (by
                rw [List.nil_append, takeWhile_cons_neg (by decide : isWsChar ',' = false)]
                rfl)]
            · have hu : isWsChar u = false := by
                rw [List.takeWhile_cons] at hr4
                by_cases huu : isWsChar u
                · rw [if_pos huu] at hr4
                  simp at hr4
                · simpa using huu
              rw [if_pos (by rw [List.cons_append, takeWhile_cons_neg hu]; rfl)]
          · simp only [Bool.not_eq_true] at hlet
            simp [hlet]

theorem noCut_cons {c : Char} {rest : List Char} (h : noCut (c :: rest) = true) :
    isCutChar c = false ∧
    (isWsChar c = true → matchAnd (c :: rest) = none ∧ c ≠ '\n') ∧
    noCut rest = true := by
  unfold noCut at h
  by_cases hc : isCutChar c = true
  · rw [if_pos hc] at h
    simp at h
  · rw [if_neg hc] at h
    by_cases hw : isWsChar c = true
    · rw [if_pos hw] at h
      simp only [Bool.and_eq_true, Option.isNone_iff_eq_none, decide_eq_true_eq] at h
      exact ⟨by simpa using hc, fun _ => ⟨h.1.1, h.1.2⟩, h.2⟩
    · rw [if_neg hw] at h
      exact ⟨by simpa using hc, fun hww => absurd hww hw, h⟩

theorem noCut_tail_space {l : List Char} (h : noCut (' ' :: l) = true) : noCut l = true :=
  (noCut_cons h).2.2

theorem scanGo_noCut : ∀ (f : Nat) (A acc : List Char), A.length ≤ f → noCut A = true →
    scanGo f A acc = [acc.reverse ++ A] := by
  intro f
  induction f with
  | zero =>
    intro A acc hf _
    have : A = [] := List.length_eq_zero.mp (Nat.le_zero.mp hf)
    subst this
    simp [scanGo]
  | succ f ih =>
    intro A acc hf h
    cases A with
    | nil => simp [scanGo]
    | cons c rest =>
      obtain ⟨hc, hwspec, hrest⟩ := noCut_cons h
      rw [scanGo]
      rw [if_neg (by simp [hc])]
      by_cases hw : isWsChar c = true
      · rw [if_pos hw]
        obtain ⟨hma, hnl⟩ := hwspec hw
        rw [hma, Option.elim_none, if_neg hnl]
        rw [ih rest (c :: acc) (by simp at hf; omega) hrest]
        simp
      · rw [if_neg hw]
        rw [ih rest (c :: acc) (by simp at hf; omega) hrest]
        simp

theorem scanGo_append_cut : ∀ (f : Nat) (A rest acc : List Char),
    (A ++ ',' :: rest).length ≤ f → noCut A = true →
    scanGo f (A ++ ',' :: rest) acc =
      (acc.reverse ++ A) :: scanGo (f - (A.length + 1)) rest [] := by
  intro f
  induction f with
  | zero =>
    intro A rest acc hf _
    simp [List.length_append] at hf
  | succ f ih =>
    intro A rest acc hf h
    cases A with
    | nil =>
      simp only [List.nil_append]
      rw [scanGo, if_pos (by decide)]
      simp
    | cons c A2 =>
      obtain ⟨hc, hwspec, hrest⟩ := noCut_cons h
      rw [List.cons_append, scanGo]
      rw [if_neg (by simp [hc])]
      by_cases hw : isWsChar c = true
      · rw [if_pos hw]
        obtain ⟨hma, hnl⟩ := hwspec hw
        have hma2 : matchAnd (c :: (A2 ++ ',' :: rest)) = none := by
          have h2 := matchAnd_append_comma (S := c :: A2) (T := rest) hma
          simpa using h2
        rw [hma2, Option.elim_none, if_neg hnl]
        rw [ih A2 rest (c :: acc) (by simp [List.length_append] at hf ⊢; omega) hrest]
        congr 1
        · simp
        · congr 1
          simp only [List.length_cons]
          omega
      · rw [if_neg hw]
        rw [ih A2 rest (c :: acc) (by simp [List.length_append] at hf ⊢; omega) hrest]
        congr 1
        · simp
        · congr 1
          simp only [List.length_cons]
          omega

theorem scanAux_noCut (A : List Char) (h : noCut A = true) : scanAux A [] = [A] := by
  unfold scanAux
  rw [scanGo_noCut A.length A [] (le_refl _) h]
  simp

theorem scanAux_append_cut (A rest : List Char) (h : noCut A = true) :
    scanAux (A ++ ',' :: rest) [] = A :: scanAux rest [] := by
  unfold scanAux
  rw [scanGo_append_cut _ A rest [] (le_refl _) h]
  simp only [List.reverse_nil, List.nil_append]
  congr 1
  apply scanGo_fuel
  · simp only [List.length_append, List.length_cons]
    omega
  · exact le_refl _

theorem intercalate_go_data :
    ∀ (as : List String) (acc : String),
      (String.intercalate.go acc ", " as).data =
        acc.data ++ as.flatMap (fun q => ',' :: ' ' :: q.data) := by
  intro as
  induction as with
  | nil => intro acc; simp [String.intercalate.go]
  | cons a as2 ih =>
    intro acc
    rw [String.intercalate.go, ih]
    simp [String.data_append, List.append_assoc]

theorem intercalate_data (x : String) (xs : List String) :
    (String.intercalate ", " (x :: xs)).data =
      x.data ++ xs.flatMap (fun q => ',' :: ' ' :: q.data) := by
  rw [String.intercalate, intercalate_go_data]

theorem scanAux_join :
    ∀ (L : List String) (B : List Char), noCut B = true →
      (∀ q ∈ L, noCut (' ' :: q.data) = true) →
      scanAux (B ++ L.flatMap (fun q => ',' :: ' ' :: q.data)) [] =
        B :: L.map (fun q => ' ' :: q.data) := by
  intro L
  induction L with
  | nil =>
    intro B hB _
    simp only [List.flatMap_nil, List.append_nil, List.map_nil]
    exact scanAux_noCut B hB
  | cons q L2 ih =>
    intro B hB hL
    have hq : noCut (' ' :: q.data) = true := hL q (by simp)
    simp only [List.flatMap_cons, List.map_cons]
    rw [show B ++ ((',' :: ' ' :: q.data) ++ L2.flatMap (fun r => ',' :: ' ' :: r.data)) =
        B ++ ',' :: ((' ' :: q.data) ++ L2.flatMap (fun r => ',' :: ' ' :: r.data)) by simp]
    rw [scanAux_append_cut B _ hB]
    rw [ih (' ' :: q.data) hq (fun r hr => hL r (by simp [hr]))]

theorem jsTrim_cons_space (l : List Char) : jsTrimChars (' ' :: l) = jsTrimChars l := by
  unfold jsTrimChars
  rw [List.dropWhile_cons, if_pos (by decide)]

theorem cleanPart_space (q : String) : cleanPart ⟨' ' :: q.data⟩ = cleanPart q := by
  unfold cleanPart
  have h : jsTrim ⟨' ' :: q.data⟩ = jsTrim q := by
    unfold jsTrim
    rw [show (⟨' ' :: q.data⟩ : String).data = ' ' :: q.data from rfl, jsTrim_cons_space]
  rw [h]

theorem sortStr_normParts (s : String) : sortStr (normParts s) = normParts s := by
  have hsorted : List.Sorted jsStrLe (normParts s) := by
    unfold normParts sortStr
    exact List.sorted_insertionSort jsStrLe _
  exact List.eq_of_perm_of_sorted (r := jsStrLe) (List.perm_insertionSort jsStrLe _)
    (List.sorted_insertionSort jsStrLe _) hsorted

theorem mem_normParts_ne {s q : String} (h : q ∈ normParts s) : q ≠ "" := by
  unfold normParts sortStr at h
  have h2 := (List.mem_insertionSort jsStrLe).mp h
  have h3 := List.mem_filter.mp h2
  simpa using h3.2

theorem normalize_eq_normParts (t : String) :
    normalizeRegionAndCustomer t = String.intercalate ", " (normParts t) :=
  normalize_eq_formula t

/-- Claim C5, amended: renormalization is the identity — and refingerprinting
an already-normalized record yields the identical digest — for every string
whose normalized segments are each free of split delimiters (comma,
ampersand, slash, newline, and the case-insensitive whitespace-bounded word
"and", including one exposed by the whitespace that the ", "-rejoin inserts)
and are fixed points of the segment cleaner.  Typical region/customer data
(country and customer names without a bare "and" word) satisfies this; the
general claim fails on inputs like "and foo, ab". -/
theorem C5_amended (s : String)
    (h : ∀ q ∈ normParts s, noCut (' ' :: q.data) = true ∧ cleanPart q = q) :
    normalizeRegionAndCustomer (normalizeRegionAndCustomer s) =
      normalizeRegionAndCustomer s ∧
    ∀ (r : RecT) (f : String),
      generateDeviceHash (setField r f
          (RVal.str (normalizeRegionAndCustomer (normalizeRegionAndCustomer s)))) =
        generateDeviceHash (setField r f (RVal.str (normalizeRegionAndCustomer s))) := by
  have hmain : normalizeRegionAndCustomer (normalizeRegionAndCustomer s) =
      normalizeRegionAndCustomer s := by
    rcases hnp : normParts s with _ | ⟨B0, L0⟩
    · rw [normalize_eq_normParts s, hnp]
      decide
    · rw [normalize_eq_normParts s, hnp]
      have hmem : ∀ q ∈ B0 :: L0, noCut (' ' :: q.data) = true ∧ cleanPart q = q := by
        rw [← hnp]
        exact h
      have hne : ∀ q ∈ B0 :: L0, q ≠ "" := by
        rw [← hnp]
        exact fun q hq => mem_normParts_ne hq
      have hsortid : sortStr (B0 :: L0) = B0 :: L0 := by
        rw [← hnp]
        exact sortStr_normParts s
      have hsplit : splitParts (String.intercalate ", " (B0 :: L0)) =
          B0 :: L0.map (fun q => (⟨' ' :: q.data⟩ : String)) := by
        unfold splitParts
        rw [intercalate_data B0 L0]
        rw [scanAux_join L0 B0.data (noCut_tail_space (hmem B0 (by simp)).1)
          (fun q hq => (hmem q (by simp [hq])).1)]
        simp only [List.map_cons, List.map_map]
        rw [string_mk_data]
        rfl
      rw [normalize_eq_normParts (String.intercalate ", " (B0 :: L0))]
      unfold normParts
      rw [hsplit]
      have hmapc : ((B0 :: L0.map (fun q => (⟨' ' :: q.data⟩ : String))).map cleanPart) =
          B0 :: L0 := by
        simp only [List.map_cons, List.map_map]
        congr 1
        · exact (hmem B0 (by simp)).2
        · have hcl : ∀ q ∈ L0, cleanPart ⟨' ' :: q.data⟩ = q := fun q hq =>
            (cleanPart_space q).trans (hmem q (by simp [hq])).2
          calc L0.map (cleanPart ∘ fun q => (⟨' ' :: q.data⟩ : String))
              = L0.map id := List.map_congr_left (fun q hq => hcl q hq)
            _ = L0 := List.map_id L0
      rw [hmapc]
      rw [List.filter_eq_self.mpr (fun a ha => by simpa using hne a ha)]
      rw [hsortid]
  exact ⟨hmain, fun r f => by rw [hmain]⟩

/-- Claim C5, witness: the already-clean input "BHAMAS, peru, Mxico"
normalizes to "Bahamas, Mexico, Peru", whose segments satisfy the amended
side condition, so a second normalization (and a second fingerprint of the
normalized record) changes nothing. -/
theorem C5_witness :
    normalizeRegionAndCustomer (normalizeRegionAndCustomer "BHAMAS, peru, Mxico") =
      normalizeRegionAndCustomer "BHAMAS, peru, Mxico" :=
  (C5_amended "BHAMAS, peru, Mxico" (by decide)).1
